import Mathlib

/-!
Verification of the Verification Cache & Result Reconciler
(repository `spabolu/mongodb-hack`).

The development shallowly embeds the Python source:

* `src/db/cache.py` : `normalize_url`, `generate_cache_key`,
  `get_cached_verification`, `store_verification`;
* `src/main.py` (`verify_content_agent`, lines 302-355) : the source
  reconciler;
* `src/app.py` (`verify_content`) : the response normalizer and the
  cache-write guard of the HTTP endpoint.

Python's `urllib.parse.urlparse` / `urlunparse` are embedded faithfully
(CPython `urllib/parse.py`): scheme split, netloc split, fragment and
query split, params split, and the `ValueError` raised on a netloc with
unbalanced square brackets.  `hashlib.sha256` is embedded as the full
FIPS 180-4 algorithm over UTF-8 bytes.  MongoDB is modelled as a list of
cache documents in natural order; `find_one` returns the first match,
`update_one` with `upsert=True` replaces the first match or appends.
Time is an integer; possible store failures are injected through an
explicit `Faults` record, and the `try/except` wrappers of the Python
code become `Except`-valued bodies plus a catching outer definition.
-/

namespace MongoHack

/-! ### Python string primitives -/

/-- Python `str` whitespace (the ASCII part, which is all the code under
study can meet): the characters stripped by `str.strip()`. -/
def pyIsSpace (c : Char) : Bool :=
  c = ' ' || c = '\t' || c = '\n' || c = '\x0d' || c = '\x0b' || c = '\x0c'

/-- Python `str.strip()` on a character list. -/
def pyStripList (l : List Char) : List Char :=
  ((l.dropWhile pyIsSpace).reverse.dropWhile pyIsSpace).reverse

/-- Python `str.strip()`. -/
def pyStrip (s : String) : String :=
  ⟨pyStripList s.data⟩

/-- Python `str.lower()` on one character (ASCII case mapping; the code
under study only ever meets ASCII). -/
def pyLowerChar (c : Char) : Char :=
  if 'A' ≤ c ∧ c ≤ 'Z' then Char.ofNat (c.toNat + 32) else c

/-- Python `str.lower()`. -/
def pyLower (s : String) : String :=
  ⟨s.data.map pyLowerChar⟩

/-- Python `netloc.replace("www.", "")`: removes every occurrence of the
exact (case-sensitive) substring `www.`, scanning left to right. -/
def replaceWwwList : List Char → List Char
  | 'w' :: 'w' :: 'w' :: '.' :: rest => replaceWwwList rest
  | c :: rest => c :: replaceWwwList rest
  | [] => []

/-- `replace("www.", "")` on strings. -/
def pyReplaceWww (s : String) : String :=
  ⟨replaceWwwList s.data⟩

/-- Python `path.rstrip("/")`: removes every trailing `/`. -/
def rstripSlashList (l : List Char) : List Char :=
  (l.reverse.dropWhile (fun c => c = '/')).reverse

/-- `rstrip("/")` on strings. -/
def pyRstripSlash (s : String) : String :=
  ⟨rstripSlashList s.data⟩

/-- Split a list at the first occurrence of `c` (the occurrence itself is
dropped); `none` when `c` does not occur. -/
def splitFirst (c : Char) : List Char → Option (List Char × List Char)
  | [] => none
  | x :: xs =>
    if x = c then some ([], xs)
    else (splitFirst c xs).map (fun p => (x :: p.1, p.2))

/-! ### `urllib.parse.urlparse` -/

/-- The result of `urllib.parse.urlparse`. -/
structure UrlParts where
  scheme : String
  netloc : String
  path : String
  params : String
  query : String
  fragment : String
  deriving Repr, DecidableEq

/-- Characters allowed in a scheme after the first (CPython
`scheme_chars`). -/
def isSchemeChar (c : Char) : Bool :=
  c.isAlpha || c.isDigit || c = '+' || c = '-' || c = '.'

/-- A netloc stop character (CPython `_splitnetloc` stops at the first of
`/`, `?`, `#`). -/
def isNetlocStop (c : Char) : Bool :=
  c = '/' || c = '?' || c = '#'

/-- CPython `_splitparams`: split `;params` off the last path segment. -/
def splitParamsList (p : List Char) : List Char × List Char :=
  let rev := p.reverse
  let lastSeg := (rev.takeWhile (fun c => c ≠ '/')).reverse
  let ini := (rev.dropWhile (fun c => c ≠ '/')).reverse
  match splitFirst ';' lastSeg with
  | some (a, b) => (ini ++ a, b)
  | none => (p, [])

/-- CPython `urlsplit` + the params split of `urlparse`, on character
lists.  Returns `Except.error ()` exactly where CPython raises
`ValueError` (a netloc containing `[` without `]` or vice versa). -/
def urlparseList (input : List Char) : Except Unit UrlParts :=
  -- urlsplit removes every tab, CR and LF before parsing
  let l := input.filter (fun c => c ≠ '\t' && c ≠ '\x0d' && c ≠ '\n')
  -- scheme split
  let schemeSplit : List Char × List Char :=
    match splitFirst ':' l with
    | some (before, after) =>
      if !before.isEmpty
          && (match before.head? with
              | some c => c.isAlpha
              | none => false)
          && before.all isSchemeChar then
        ((before.map pyLowerChar), after)
      else ([], l)
    | none => ([], l)
  let scheme := schemeSplit.1
  let rest := schemeSplit.2
  -- netloc split
  let netlocSplit : List Char × List Char :=
    match rest with
    | '/' :: '/' :: r2 =>
      (r2.takeWhile (fun c => ¬ isNetlocStop c), r2.dropWhile (fun c => ¬ isNetlocStop c))
    | r => ([], r)
  let netloc := netlocSplit.1
  let rest2 := netlocSplit.2
  if (netloc.contains '[' && !netloc.contains ']')
      || (netloc.contains ']' && !netloc.contains '[') then
    Except.error ()
  else
    -- fragment split (first '#')
    let fragSplit : List Char × List Char :=
      match splitFirst '#' rest2 with
      | some (before, frag) => (before, frag)
      | none => (rest2, [])
    -- query split (first '?')
    let querySplit : List Char × List Char :=
      match splitFirst '?' fragSplit.1 with
      | some (before, q) => (before, q)
      | none => (fragSplit.1, [])
    -- params split (urlparse on top of urlsplit)
    let pp := splitParamsList querySplit.1
    Except.ok
      { scheme := ⟨scheme⟩
        netloc := ⟨netloc⟩
        path := ⟨pp.1⟩
        params := ⟨pp.2⟩
        query := ⟨querySplit.2⟩
        fragment := ⟨fragSplit.2⟩ }

/-- `urllib.parse.urlparse` on strings. -/
def urlparse (s : String) : Except Unit UrlParts :=
  urlparseList s.data

/-- `urllib.parse.urlunparse ((scheme, netloc, path, "", "", ""))`: the
reassembly used by `normalize_url` (params, query and fragment empty). -/
def urlunparse3 (scheme netloc path : String) : String :=
  let url :=
    if netloc ≠ "" ∨ path.data.take 2 = ['/', '/'] then
      let url2 :=
        if path ≠ "" ∧ path.data.head? ≠ some '/' then "/" ++ path else path
      "//" ++ netloc ++ url2
    else path
  if scheme ≠ "" then scheme ++ ":" ++ url else url

/-! ### `normalize_url` (src/db/cache.py, lines 26-62) -/

/-- `normalize_url` from `src/db/cache.py`: lowercase and strip, parse,
drop every `www.` from the netloc, drop trailing slashes from the path,
reassemble scheme + netloc + path; on a parse error fall back to the
lowercased stripped input; the empty string maps to itself. -/
def normalize_url (url : String) : String :=
  if url = "" then ""
  else
    let t := pyStrip (pyLower url)
    match urlparse t with
    | Except.error _ => t
    | Except.ok p => urlunparse3 p.scheme (pyReplaceWww p.netloc) (pyRstripSlash p.path)

/-! ### SHA-256 (`hashlib.sha256(... .encode("utf-8")).hexdigest()`) -/

/-- UTF-8 encoding of one character, as byte values. -/
def utf8Char (c : Char) : List Nat :=
  let n := c.toNat
  if n < 0x80 then [n]
  else if n < 0x800 then
    [0xc0 + n / 64, 0x80 + n % 64]
  else if n < 0x10000 then
    [0xe0 + n / 4096, 0x80 + n / 64 % 64, 0x80 + n % 64]
  else
    [0xf0 + n / 262144, 0x80 + n / 4096 % 64, 0x80 + n / 64 % 64, 0x80 + n % 64]

/-- UTF-8 bytes of a string (`str.encode("utf-8")`). -/
def utf8Bytes (s : String) : List Nat :=
  s.data.flatMap utf8Char

/-- Truncation to a 32-bit word. -/
def w32 (x : Nat) : Nat := x % 4294967296

/-- 32-bit rotate right. -/
def rotr (n x : Nat) : Nat := w32 ((x >>> n) ||| (x <<< (32 - n)))

def sha256Ch (x y z : Nat) : Nat := (x &&& y) ^^^ ((x ^^^ 0xffffffff) &&& z)

def sha256Maj (x y z : Nat) : Nat := (x &&& y) ^^^ (x &&& z) ^^^ (y &&& z)

def bSig0 (x : Nat) : Nat := rotr 2 x ^^^ rotr 13 x ^^^ rotr 22 x

def bSig1 (x : Nat) : Nat := rotr 6 x ^^^ rotr 11 x ^^^ rotr 25 x

def sSig0 (x : Nat) : Nat := rotr 7 x ^^^ rotr 18 x ^^^ (x >>> 3)

def sSig1 (x : Nat) : Nat := rotr 17 x ^^^ rotr 19 x ^^^ (x >>> 10)

/-- The SHA-256 round constants (FIPS 180-4, in decimal). -/
def sha256K : List Nat :=
  [1116352408, 1899447441, 3049323471, 3921009573, 961987163,
   1508970993, 2453635748, 2870763221, 3624381080, 310598401,
   607225278, 1426881987, 1925078388, 2162078206, 2614888103,
   3248222580, 3835390401, 4022224774, 264347078, 604807628,
   770255983, 1249150122, 1555081692, 1996064986, 2554220882,
   2821834349, 2952996808, 3210313671, 3336571891, 3584528711,
   113926993, 338241895, 666307205, 773529912, 1294757372,
   1396182291, 1695183700, 1986661051, 2177026350, 2456956037,
   2730485921, 2820302411, 3259730800, 3345764771, 3516065817,
   3600352804, 4094571909, 275423344, 430227734, 506948616,
   659060556, 883997877, 958139571, 1322822218, 1537002063,
   1747873779, 1955562222, 2024104815, 2227730452, 2361852424,
   2428436474, 2756734187, 3204031479, 3329325298]

/-- The SHA-256 initial hash value (FIPS 180-4, in decimal). -/
def sha256H0 : List Nat :=
  [1779033703, 3144134277, 1013904242, 2773480762,
   1359893119, 2600822924, 528734635, 1541459225]

/-- Big-endian 8-byte encoding of a length in bits. -/
def be64 (n : Nat) : List Nat :=
  [n >>> 56 % 256, n >>> 48 % 256, n >>> 40 % 256, n >>> 32 % 256,
   n >>> 24 % 256, n >>> 16 % 256, n >>> 8 % 256, n % 256]

/-- SHA-256 message padding. -/
def sha256Pad (msg : List Nat) : List Nat :=
  let len := msg.length
  let k := (119 - len % 64) % 64
  msg ++ [0x80] ++ List.replicate k 0 ++ be64 (len * 8)

/-- Group four bytes into one big-endian 32-bit word, repeatedly. -/
def bytesToWords : List Nat → List Nat
  | b0 :: b1 :: b2 :: b3 :: rest =>
    (b0 * 16777216 + b1 * 65536 + b2 * 256 + b3) :: bytesToWords rest
  | _ => []

/-- Extend 16 schedule words to 64. -/
def sha256Schedule (w16 : List Nat) : Array Nat :=
  (List.range 48).foldl
    (fun a _ =>
      a.push (w32 (sSig1 (a.getD (a.size - 2) 0) + a.getD (a.size - 7) 0
        + sSig0 (a.getD (a.size - 15) 0) + a.getD (a.size - 16) 0)))
    w16.toArray

/-- One SHA-256 round on the state `[a, b, c, d, e, f, g, h]`. -/
def sha256Round (k w : Nat) : List Nat → List Nat
  | [a, b, c, d, e, f, g, h] =>
    let t1 := w32 (h + bSig1 e + sha256Ch e f g + k + w)
    let t2 := w32 (bSig0 a + sha256Maj a b c)
    [w32 (t1 + t2), a, b, c, w32 (d + t1), e, f, g]
  | st => st

/-- Compress one 64-byte block into the running hash. -/
def sha256Block (h : List Nat) (block : List Nat) : List Nat :=
  let ws := sha256Schedule (bytesToWords block)
  let st := (List.range 64).foldl
    (fun st i => sha256Round (sha256K.getD i 0) (ws.getD i 0) st) h
  List.zipWith (fun x y => w32 (x + y)) h st

/-- Split a padded message into 64-byte blocks (fuel = block count). -/
def chunks64 : Nat → List Nat → List (List Nat)
  | 0, _ => []
  | n + 1, l => l.take 64 :: chunks64 n (l.drop 64)

/-- The SHA-256 digest of a byte list, as eight 32-bit words. -/
def sha256Words (msg : List Nat) : List Nat :=
  let padded := sha256Pad msg
  (chunks64 (padded.length / 64) padded).foldl sha256Block sha256H0

/-- One lowercase hexadecimal digit. -/
def hexDigit (n : Nat) : Char :=
  if n < 10 then Char.ofNat (48 + n) else Char.ofNat (87 + n)

/-- Eight lowercase hex digits of one 32-bit word. -/
def wordHex (w : Nat) : List Char :=
  (List.range 8).map (fun i => hexDigit (w >>> ((7 - i) * 4) % 16))

/-- `hashlib.sha256(s.encode("utf-8")).hexdigest()`. -/
def sha256hex (s : String) : String :=
  ⟨(sha256Words (utf8Bytes s)).flatMap wordHex⟩

/-! ### `generate_cache_key` (src/db/cache.py, lines 65-75) -/

/-- `generate_cache_key`: the SHA-256 hex digest of the normalized URL. -/
def generate_cache_key (url : String) : String :=
  sha256hex (normalize_url url)

/-! ### Data model

A verifier raw result / cached result is a JSON object with the fields
the code reads: `is_correct`, `explanation`, a `sources` list, and the
legacy top-level `source_url` / `source_description` pair.  A missing or
falsy string field is modelled as `""` (the code always reads these
fields with `.get(..., "")` or tests them for truthiness); a `None`
element of `sources` behaves as `(source or {})`, i.e. as a source whose
two fields are `""`, which the model represents directly. -/

/-- One element of a `sources` list. -/
structure RSource where
  source_url : String
  source_description : String
  deriving Repr, DecidableEq

/-- A verification result (raw LLM output, reconciled output, or cached
payload — the code passes the same dict shape through all three roles). -/
structure VResult where
  is_correct : Option Bool
  explanation : String
  sources : List RSource
  source_url : String
  source_description : String
  deriving Repr, DecidableEq

/-- A document of the `verification_cache` collection.  Times are
integers counted in days (the code uses `datetime`; only order and the
`now + timedelta(days=30)` shift matter to the logic). -/
structure CacheEntry where
  cache_key : String
  url : String
  result : VResult
  created_at : Int
  expires_at : Int
  deriving Repr, DecidableEq

/-- The MongoDB collection, in natural document order: `find_one`
returns the first match, deletion removes the found document,
`update_one(..., upsert=True)` replaces the first match or appends. -/
abbrev Store := List CacheEntry

/-- Injected store failures: `findFail` makes `find_one` raise,
`deleteFail` makes `delete_one` raise, `updateFail` makes `update_one`
raise (standing for any network/storage error the driver can throw). -/
structure Faults where
  findFail : Bool
  deleteFail : Bool
  updateFail : Bool
  deriving Repr, DecidableEq

/-- A healthy store: no operation fails. -/
def noFaults : Faults := ⟨false, false, false⟩

/-- `collection.find_one({"cache_key": k})`: the first document whose
`cache_key` equals `k`, in natural order. -/
def findOne : Store → String → Option CacheEntry
  | [], _ => none
  | e :: rest, k => if e.cache_key == k then some e else findOne rest k

/-- `collection.delete_one({"_id": doc["_id"]})` for the document that
`find_one` returned: removes the first document with the key. -/
def deleteOne (s : Store) (k : String) : Store :=
  s.eraseP (fun e => e.cache_key == k)

/-- `CACHE_TTL_DAYS` from `src/db/cache.py`. -/
def CACHE_TTL_DAYS : Int := 30

/-- The document built by `store_verification` (all five fields,
including a fresh `created_at`). -/
def mkDocument (url : String) (r : VResult) (now : Int) : CacheEntry :=
  { cache_key := generate_cache_key url
    url := normalize_url url
    result := r
    created_at := now
    expires_at := now + CACHE_TTL_DAYS }

/-- `collection.update_one({"cache_key": k}, {"$set": doc}, upsert=True)`:
`$set` of the full document replaces every field of the first matching
document; with no match the document is inserted. -/
def upsertOne (s : Store) (k : String) (doc : CacheEntry) : Store :=
  match s with
  | [] => [doc]
  | e :: rest => if e.cache_key == k then doc :: rest else e :: upsertOne rest k doc

/-! ### `get_cached_verification` / `store_verification`
(src/db/cache.py, lines 78-165) -/

/-- The body of `get_cached_verification` inside its `try`: the value it
would produce (or the exception), paired with the store as the body
leaves it.  The Python guard `if expires_at and expires_at < now` always
takes the comparison branch here because a stored `expires_at` is a
`datetime`, which is truthy. -/
def getBody (s : Store) (url : String) (now : Int) (f : Faults) :
    Except Unit (Option VResult) × Store :=
  if f.findFail then (Except.error (), s)
  else
    let k := generate_cache_key url
    match findOne s k with
    | none => (Except.ok none, s)
    | some doc =>
      if doc.expires_at < now then
        if f.deleteFail then (Except.error (), s)
        else (Except.ok none, deleteOne s k)
      else (Except.ok (some doc.result), s)

/-- `get_cached_verification`: the body with its `except Exception`
wrapper, which turns any raise into a `None` (miss). -/
def get_cached_verification (s : Store) (url : String) (now : Int) (f : Faults) :
    Option VResult × Store :=
  match getBody s url now f with
  | (Except.ok v, s2) => (v, s2)
  | (Except.error _, s2) => (none, s2)

/-- The body of `store_verification` inside its `try`. -/
def storeBody (s : Store) (url : String) (r : VResult) (now : Int) (f : Faults) :
    Except Unit Unit × Store :=
  if f.updateFail then (Except.error (), s)
  else (Except.ok (), upsertOne s (generate_cache_key url) (mkDocument url r now))

/-- `store_verification`: the body with its `except Exception` wrapper,
which logs and returns normally, leaving the store as the body left it. -/
def store_verification (s : Store) (url : String) (r : VResult) (now : Int)
    (f : Faults) : Store :=
  (storeBody s url r now f).2

/-! ### The source reconciler (src/main.py, lines 302-355) -/

/-- `urlparse(u).netloc.replace("www.", "").lower()` as `src/main.py`
computes a domain: the case-sensitive replace of every `www.` happens
before lowercasing, and `urlparse` can raise. -/
def agentDomain (u : String) : Except Unit String :=
  (urlparse u).map (fun p => pyLower (pyReplaceWww p.netloc))

/-- `reddit_domain` (src/main.py lines 305-307):
`urlparse(url).netloc.replace("www.", "").lower() if url else ""`. -/
def redditDomain (url : String) : Except Unit String :=
  if url = "" then Except.ok "" else agentDomain url

/-- The `for source in parsed_result.get("sources") or []` loop:
`seen` is the set of already-accepted URLs, `acc` the accepted sources
in order.  A candidate is skipped when its stripped URL is empty, when
its domain equals `reddit_domain`, or when its URL was already accepted;
`urlparse` failure on a candidate propagates (no `try` around the loop
short of the endpoint's). -/
def reconcileLoop (rd : String) : List RSource → List String → List RSource →
    Except Unit (List RSource × List String)
  | [], seen, acc => Except.ok (acc, seen)
  | s :: rest, seen, acc =>
    let su := pyStrip s.source_url
    if su = "" then reconcileLoop rd rest seen acc
    else
      (agentDomain su).bind (fun sd =>
        if sd = rd then reconcileLoop rd rest seen acc
        else if seen.contains su then reconcileLoop rd rest seen acc
        else reconcileLoop rd rest (su :: seen) (acc ++ [⟨su, pyStrip s.source_description⟩]))

/-- The source-reconciliation block of `verify_content_agent`
(src/main.py lines 302-355): candidate loop, legacy single-source
fallback (kept only with a nonempty domain different from
`reddit_domain`), cap at 3, and write-back into the parsed result. -/
def reconcile (url : String) (pr : VResult) : Except Unit VResult :=
  (redditDomain url).bind (fun rd =>
    (reconcileLoop rd pr.sources [] []).bind (fun p =>
      (if p.1 = [] ∧ pr.source_url ≠ "" ∧ ¬ (p.2.contains pr.source_url = true) then
        (agentDomain pr.source_url).bind (fun fd =>
          if fd ≠ "" ∧ fd ≠ rd then
            Except.ok (p.1 ++ [(⟨pr.source_url, pyStrip pr.source_description⟩ : RSource)])
          else Except.ok p.1)
      else Except.ok p.1).bind (fun acc2 =>
        Except.ok { pr with sources := acc2.take 3 })))

/-! ### The HTTP endpoint (src/app.py, `verify_content`) -/

/-- The `VerifyResponse` model of `src/app.py` (the `sources` elements
are `SourceItem`s, which have the same two fields as `RSource`). -/
structure VerifyResponse where
  is_correct : Option Bool
  explanation : String
  sources : List RSource
  source_url : String
  source_description : String
  status : String
  deriving Repr, DecidableEq

/-- The response-normalization tail of `verify_content` (src/app.py
lines 166-206): legacy single-source upgrade when `sources` is empty,
strip-and-drop-empty cleanup, and legacy top-level fields taken from the
first cleaned source (empty strings when there is none). -/
def buildResponse (result : VResult) : VerifyResponse :=
  let raw := result.sources
  let raw2 :=
    if raw = [] ∧ result.source_url ≠ "" then
      [(⟨result.source_url, result.source_description⟩ : RSource)]
    else raw
  let ns := raw2.filterMap (fun s =>
    let u := pyStrip s.source_url
    let d := pyStrip s.source_description
    if u ≠ "" then some (⟨u, d⟩ : RSource) else none)
  { is_correct := result.is_correct
    explanation := result.explanation
    sources := ns
    source_url := (ns.headD ⟨"", ""⟩).source_url
    source_description := (ns.headD ⟨"", ""⟩).source_description
    status := "success" }

/-- The cache-write guard of `verify_content` (src/app.py lines
153-164): `if result.get("is_correct") is not None or
result.get("explanation")`. -/
def shouldCache (r : VResult) : Bool :=
  r.is_correct.isSome || r.explanation != ""

/-- The cache-miss write-back step of `verify_content`: store the fresh
result only when the guard holds. -/
def endpointCacheStep (s : Store) (url : String) (r : VResult) (now : Int) : Store :=
  if shouldCache r then store_verification s url r now noFaults else s

/-- The cache-miss delivery path: the reconciler of
`verify_content_agent` composed with the response normalization of
`verify_content` — what the client receives for a fresh verification. -/
def deliverFresh (url : String) (pr : VResult) : Except Unit VerifyResponse :=
  (reconcile url pr).map buildResponse

/-! ### Definitions taken from the claims' wording (for refutation or
refinement), clearly separated from the source embedding above -/

/-- From the wording of claim C2/C4: remove a single *leading* `www.`
from a host. -/
def stripLeadingWww (s : String) : String :=
  if s.data.take 4 = ['w', 'w', 'w', '.'] then ⟨s.data.drop 4⟩ else s

/-- From the wording of claim C2: strip a *single* trailing slash. -/
def stripOneTrailingSlash (s : String) : String :=
  match s.data.getLast? with
  | some '/' => ⟨s.data.dropLast⟩
  | _ => s

/-- The normalization algorithm exactly as claim C2 words it: lowercase
and trim, parse, strip a leading `www.` from the host, strip query and
fragment, strip a single trailing slash from the path, reassemble
scheme + host + path; empty input and parse-failure fallback as in the
claim. -/
def normalizeClaimC2 (url : String) : String :=
  if url = "" then ""
  else
    let t := pyStrip (pyLower url)
    match urlparse t with
    | Except.error _ => t
    | Except.ok p => urlunparse3 p.scheme (stripLeadingWww p.netloc) (stripOneTrailingSlash p.path)

/-- Removal of every occurrence of `www.`, written as the amended claim
C2 words it (scan left to right, at each position drop a `www.` match or
keep the character). -/
def goWww (l : List Char) : List Char :=
  match l with
  | [] => []
  | c :: rest =>
    if l.take 4 = ['w', 'w', 'w', '.'] then goWww (rest.drop 3)
    else c :: goWww rest
termination_by l.length
decreasing_by
  all_goals simp_all [List.length_drop]
  omega

/-- Removal of all trailing slashes, written forwards as the amended
claim C2 words it: a character is dropped exactly when it and everything
after it are slashes. -/
def dropSlashTail : List Char → List Char
  | [] => []
  | c :: rest =>
    if c = '/' ∧ rest.all (fun x => x = '/') then []
    else c :: dropSlashTail rest

/-- The normalization algorithm as amended claim C2 words it: like
`normalizeClaimC2` but removing *every* `www.` occurrence from the host
and *all* trailing slashes from the path. -/
def normalizeAmendedC2 (url : String) : String :=
  if url = "" then ""
  else
    let t := pyStrip (pyLower url)
    match urlparse t with
    | Except.error _ => t
    | Except.ok p => urlunparse3 p.scheme ⟨goWww p.netloc.data⟩ ⟨dropSlashTail p.path.data⟩

/-- From the wording of claim C4: a candidate's "normalized host
(lowercased, `www.` prefix removed)". -/
def claimHostNorm (u : String) : Except Unit String :=
  (urlparse u).map (fun p => stripLeadingWww (pyLower p.netloc))

/-- The reconciliation pipeline exactly as claim C6 words it: trim both
fields, discard empty URLs, discard exact-match duplicates of an
already-accepted URL — and nothing else. -/
def specLoopC6 (accepted : List RSource) : List RSource → List RSource
  | [] => accepted
  | s :: rest =>
    let su := pyStrip s.source_url
    if su = "" ∨ (accepted.map RSource.source_url).contains su then specLoopC6 accepted rest
    else specLoopC6 (accepted ++ [(⟨su, pyStrip s.source_description⟩ : RSource)]) rest

/-- Claim C6's reconciled list: the accepted sequence truncated to 3. -/
def specReconcileC6 (cands : List RSource) : List RSource :=
  (specLoopC6 [] cands).take 3

/-- Stage one of the amended claim C6 pipeline: trim, discard empty
URLs, discard candidates whose code-normalized host equals the original
URL's (propagating the parse error `urlparse` can raise). -/
def specFilterC6 (rd : String) : List RSource → Except Unit (List RSource)
  | [] => Except.ok []
  | s :: rest =>
    let su := pyStrip s.source_url
    if su = "" then specFilterC6 rd rest
    else
      (agentDomain su).bind (fun sd =>
        if sd = rd then specFilterC6 rd rest
        else (specFilterC6 rd rest).map
          (fun l => (⟨su, pyStrip s.source_description⟩ : RSource) :: l))

/-- Stage two of the amended claim C6 pipeline: keep the first
occurrence of each `source_url` (`seen` collects URLs already kept). -/
def dedupKeepFirst : List RSource → List String → List RSource
  | [], _ => []
  | s :: rest, seen =>
    if seen.contains s.source_url then dedupKeepFirst rest seen
    else s :: dedupKeepFirst rest (s.source_url :: seen)

/-- The amended claim C6 pipeline: filter, dedup keeping first
occurrences, truncate to 3. -/
def specReconcileC6Amended (url : String) (cands : List RSource) :
    Except Unit (List RSource) :=
  (redditDomain url).bind (fun rd =>
    (specFilterC6 rd cands).map (fun filtered => (dedupKeepFirst filtered []).take 3))

/-- Amended claim C8's relation on hosts: equal, or one is the other
with a leading `www.`. -/
def relWww (a b : String) : Prop :=
  a = b ∨ a = "www." ++ b ∨ b = "www." ++ a

/-- Amended claim C8's relation on paths: equal, or one is the other
with an extra trailing slash. -/
def relSlash (a b : String) : Prop :=
  a = b ∨ a = b ++ "/" ∨ b = a ++ "/"

/-- Equality of embedded `Except` values is decidable (used to evaluate
the model at concrete inputs). -/
instance {ε α : Type} [DecidableEq ε] [DecidableEq α] : DecidableEq (Except ε α) := fun x y =>
  match x, y with
  | Except.error a, Except.error b =>
    if h : a = b then isTrue (congrArg Except.error h)
    else isFalse (fun hh => by injection hh with h2; exact h h2)
  | Except.ok a, Except.ok b =>
    if h : a = b then isTrue (congrArg Except.ok h)
    else isFalse (fun hh => by injection hh with h2; exact h h2)
  | Except.error _, Except.ok _ => isFalse (fun hh => by injection hh)
  | Except.ok _, Except.error _ => isFalse (fun hh => by injection hh)

/-! ### Helper lemmas -/

theorem exceptBind_ok {α β : Type} (a : α) (f : α → Except Unit β) :
    (Except.ok a : Except Unit α).bind f = f a := rfl

theorem exceptBind_error {α β : Type} (e : Unit) (f : α → Except Unit β) :
    (Except.error e : Except Unit α).bind f = Except.error e := rfl

theorem exceptMap_ok {α β : Type} (a : α) (f : α → β) :
    (Except.ok a : Except Unit α).map f = Except.ok (f a) := rfl

theorem exceptMap_error {α β : Type} (e : Unit) (f : α → β) :
    (Except.error e : Except Unit α).map f = Except.error e := rfl

theorem pyReplaceWww_www_append (n : String) :
    pyReplaceWww ("www." ++ n) = pyReplaceWww n := by
  have h : ("www." ++ n).data = 'w' :: 'w' :: 'w' :: '.' :: n.data := by
    rw [String.data_append]; rfl
  rw [pyReplaceWww, pyReplaceWww, h]
  rfl

theorem pyRstripSlash_append_slash (p : String) :
    pyRstripSlash (p ++ "/") = pyRstripSlash p := by
  have h : (p ++ "/").data = p.data ++ ['/'] := by
    rw [String.data_append]
  show (⟨rstripSlashList (p ++ "/").data⟩ : String) = ⟨rstripSlashList p.data⟩
  rw [h]
  have h2 : rstripSlashList (p.data ++ ['/']) = rstripSlashList p.data := by
    simp [rstripSlashList, List.reverse_append, List.dropWhile_cons]
  rw [h2]

theorem mem_upsertOne {s : Store} {k : String} {doc e : CacheEntry}
    (h : e ∈ upsertOne s k doc) : e ∈ s ∨ e = doc := by
  induction s with
  | nil => simp [upsertOne] at h; exact Or.inr h
  | cons a rest ih =>
    rw [upsertOne] at h
    by_cases hk : (a.cache_key == k) = true
    · simp [hk] at h
      rcases h with h | h
      · exact Or.inr h
      · exact Or.inl (List.mem_cons_of_mem _ h)
    · simp [hk] at h
      rcases h with h | h
      · exact Or.inl (h ▸ List.mem_cons_self _ _)
      · rcases ih h with h2 | h2
        · exact Or.inl (List.mem_cons_of_mem _ h2)
        · exact Or.inr h2

/-! ### Claims -/

/-- C7: in every response, the top-level legacy `source_url` and
`source_description` equal those of the first element of the reconciled
`sources` list, and equal the empty string when that list is empty. -/
theorem buildResponse_legacy_consistent (r : VResult) :
    (buildResponse r).source_url = ((buildResponse r).sources.headD ⟨"", ""⟩).source_url ∧
    (buildResponse r).source_description
      = ((buildResponse r).sources.headD ⟨"", ""⟩).source_description ∧
    ((buildResponse r).sources = [] →
      (buildResponse r).source_url = "" ∧ (buildResponse r).source_description = "") := by
  refine ⟨rfl, rfl, fun h => ?_⟩
  have h1 : (buildResponse r).source_url
      = ((buildResponse r).sources.headD ⟨"", ""⟩).source_url := rfl
  have h2 : (buildResponse r).source_description
      = ((buildResponse r).sources.headD ⟨"", ""⟩).source_description := rfl
  rw [h1, h2, h]
  exact ⟨rfl, rfl⟩

/-- Witness for C7 at a concrete result with an empty sources list. -/
theorem buildResponse_legacy_consistent_witness :
    (buildResponse ⟨none, "", [], "", ""⟩).source_url = ""
      ∧ (buildResponse ⟨none, "", [], "", ""⟩).source_description = "" :=
  (buildResponse_legacy_consistent ⟨none, "", [], "", ""⟩).2.2 (by decide)

/-- C10: the endpoint writes a fresh result to the cache only when
`is_correct` is not `None` or the explanation is nonempty; an
inconclusive result is never stored, and the write-back step preserves
the invariant that every cached entry holds a conclusive result. -/
theorem endpointCacheStep_conclusive (s : Store) (url : String) (r : VResult) (now : Int) :
    (r.is_correct = none → r.explanation = "" → endpointCacheStep s url r now = s) ∧
    (shouldCache r = true →
      endpointCacheStep s url r now = store_verification s url r now noFaults) ∧
    ((∀ e ∈ s, shouldCache e.result = true) →
      ∀ e ∈ endpointCacheStep s url r now, shouldCache e.result = true) := by
  refine ⟨fun h1 h2 => ?_, fun h => ?_, fun hs e he => ?_⟩
  · have : shouldCache r = false := by simp [shouldCache, h1, h2]
    simp [endpointCacheStep, this]
  · simp [endpointCacheStep, h]
  · rw [endpointCacheStep] at he
    by_cases h : shouldCache r = true
    · rw [if_pos h] at he
      rw [store_verification, storeBody] at he
      simp [noFaults] at he
      rcases mem_upsertOne he with h2 | h2
      · exact hs e h2
      · rw [h2]
        exact h
    · rw [if_neg h] at he
      exact hs e he

/-- Witness for C10: an inconclusive result leaves the store unchanged. -/
theorem endpointCacheStep_conclusive_witness :
    endpointCacheStep [] "https://a.com/x" ⟨none, "", [], "", ""⟩ 0 = [] :=
  (endpointCacheStep_conclusive [] "https://a.com/x" ⟨none, "", [], "", ""⟩ 0).1
    (by decide) (by decide)

/-- Counterexample to C2 as stated: on
`https://en.www.example.com/a//` the code removes the non-leading
`www.` and both trailing slashes, while the claim's algorithm (leading
`www.` only, single trailing slash) keeps them. -/
theorem normalize_url_c2_counterexample :
    normalize_url "https://en.www.example.com/a//" = "https://en.example.com/a" ∧
    normalizeClaimC2 "https://en.www.example.com/a//" = "https://en.www.example.com/a/" ∧
    normalize_url "https://en.www.example.com/a//"
      ≠ normalizeClaimC2 "https://en.www.example.com/a//" := by
  refine ⟨by decide, by decide, by decide⟩

/-- Counterexample to C4 as stated: the candidate
`https://WWW.reddit.com/other` has claim-normalized host `reddit.com`,
equal to the original's, yet the code keeps it — `src/main.py` removes
the case-sensitive `www.` *before* lowercasing, so `WWW.` survives. -/
theorem reconcile_c4_counterexample :
    claimHostNorm "https://WWW.reddit.com/other" = Except.ok "reddit.com" ∧
    claimHostNorm "https://reddit.com/r/news/x" = Except.ok "reddit.com" ∧
    reconcile "https://reddit.com/r/news/x"
        ⟨some true, "e", [⟨"https://WWW.reddit.com/other", "d"⟩], "", ""⟩ =
      Except.ok ⟨some true, "e", [⟨"https://WWW.reddit.com/other", "d"⟩], "", ""⟩ := by
  refine ⟨by decide, by decide, by decide⟩

/-- C5 (code bug): a raw result whose only citation is the legacy
top-level pair with the *same* host as the original URL.  The reconciler
correctly refuses it (`sources` stays empty), but the endpoint's legacy
upgrade re-synthesizes it without any host check, so the client receives
a source whose host equals the original content URL's host. -/
theorem endpoint_same_host_fallback_bug :
    reconcile "https://reddit.com/r/news/abc"
        ⟨some true, "e", [], "https://reddit.com/self", "d"⟩ =
      Except.ok ⟨some true, "e", [], "https://reddit.com/self", "d"⟩ ∧
    deliverFresh "https://reddit.com/r/news/abc"
        ⟨some true, "e", [], "https://reddit.com/self", "d"⟩ =
      Except.ok ⟨some true, "e", [⟨"https://reddit.com/self", "d"⟩],
        "https://reddit.com/self", "d", "success"⟩ ∧
    agentDomain "https://reddit.com/self" = Except.ok "reddit.com" ∧
    redditDomain "https://reddit.com/r/news/abc" = Except.ok "reddit.com" := by
  refine ⟨by decide, by decide, by decide, by decide⟩

/-- Counterexample to C6 as stated: the claim's pipeline (trim, drop
empty, dedup, cap) keeps a candidate that shares the original URL's
host, but the code also discards same-host candidates. -/
theorem reconcile_c6_counterexample :
    specReconcileC6 [⟨"https://reddit.com/other", "d"⟩]
      = [⟨"https://reddit.com/other", "d"⟩] ∧
    reconcile "https://reddit.com/x"
        ⟨some true, "e", [⟨"https://reddit.com/other", "d"⟩], "", ""⟩ =
      Except.ok ⟨some true, "e", [], "", ""⟩ := by
  refine ⟨by decide, by decide⟩

theorem findOne_upsertOne_self (s : Store) (k : String) (doc : CacheEntry)
    (h : doc.cache_key = k) : findOne (upsertOne s k doc) k = some doc := by
  induction s with
  | nil => simp [upsertOne, findOne, h]
  | cons a rest ih =>
    rw [upsertOne]
    by_cases hk : (a.cache_key == k) = true
    · simp [hk, findOne, h]
    · rw [if_neg hk, findOne, if_neg hk]
      exact ih

theorem findOne_upsertOne_ne (s : Store) (k k' : String) (doc : CacheEntry)
    (h : doc.cache_key = k) (hne : k' ≠ k) :
    findOne (upsertOne s k doc) k' = findOne s k' := by
  induction s with
  | nil =>
    have hd : (doc.cache_key == k') = false := by
      rw [h]; exact beq_false_of_ne (fun hh => hne hh.symm)
    simp [upsertOne, findOne, hd]
  | cons a rest ih =>
    rw [upsertOne]
    by_cases hk : (a.cache_key == k) = true
    · have hak : a.cache_key = k := eq_of_beq hk
      have h1 : (doc.cache_key == k') = false := by
        rw [h]; exact beq_false_of_ne (fun hh => hne hh.symm)
      have h2 : (a.cache_key == k') = false := by
        rw [hak]; exact beq_false_of_ne (fun hh => hne hh.symm)
      rw [if_pos hk, findOne, findOne, h1, h2]
      simp
    · rw [if_neg hk, findOne, findOne]
      cases hb : (a.cache_key == k') with
      | true => simp [hb]
      | false => simp [hb]; exact ih

/-- C1: a missing entry yields a miss; a stored entry whose `expires_at`
is before `now` yields a miss and is deleted from the store; a hit
always carries the result of an entry that has not expired. -/
theorem get_cached_verification_expiry (s : Store) (url : String) (now : Int) :
    (findOne s (generate_cache_key url) = none →
      get_cached_verification s url now noFaults = (none, s)) ∧
    (∀ e, findOne s (generate_cache_key url) = some e → e.expires_at < now →
      get_cached_verification s url now noFaults
        = (none, deleteOne s (generate_cache_key url))) ∧
    (∀ r, (get_cached_verification s url now noFaults).1 = some r →
      ∃ e, findOne s (generate_cache_key url) = some e ∧ e.result = r
        ∧ now ≤ e.expires_at) := by
  refine ⟨fun h => ?_, fun e he hlt => ?_, fun r hr => ?_⟩
  · simp [get_cached_verification, getBody, noFaults, h]
  · simp [get_cached_verification, getBody, noFaults, he, hlt]
  · rw [get_cached_verification] at hr
    cases hfind : findOne s (generate_cache_key url) with
    | none => simp [getBody, noFaults, hfind] at hr
    | some e =>
      by_cases hlt : e.expires_at < now
      · simp [getBody, noFaults, hfind, hlt] at hr
      · simp [getBody, noFaults, hfind, hlt] at hr
        exact ⟨e, rfl, hr, le_of_not_lt hlt⟩

set_option maxRecDepth 100000 in
/-- Witness for C1: a concrete expired entry is missed and deleted. -/
theorem get_cached_verification_expiry_witness :
    get_cached_verification
        [mkDocument "https://a.com/x" ⟨some true, "e", [], "", ""⟩ 0]
        "https://a.com/x" 31 noFaults
      = (none,
          deleteOne [mkDocument "https://a.com/x" ⟨some true, "e", [], "", ""⟩ 0]
            (generate_cache_key "https://a.com/x")) :=
  (get_cached_verification_expiry
      [mkDocument "https://a.com/x" ⟨some true, "e", [], "", ""⟩ 0]
      "https://a.com/x" 31).2.1
    (mkDocument "https://a.com/x" ⟨some true, "e", [], "", ""⟩ 0)
    (by decide) (by decide)

/-- C3: cache lookup and cache write never raise: an injected `find`
failure (and, generally, any raise inside the body) makes the lookup
return `None` with the store as the body left it, and any raise inside
the write body leaves the store unchanged, the wrapper returning
normally. -/
theorem cache_failure_swallowed (s : Store) (url : String) (r : VResult)
    (now : Int) (f : Faults) :
    (f.findFail = true → get_cached_verification s url now f = (none, s)) ∧
    (∀ e, (getBody s url now f).1 = Except.error e →
      get_cached_verification s url now f = (none, (getBody s url now f).2)) ∧
    (f.updateFail = true → store_verification s url r now f = s) ∧
    (∀ e, (storeBody s url r now f).1 = Except.error e →
      store_verification s url r now f = s) := by
  refine ⟨fun h => ?_, fun e he => ?_, fun h => ?_, fun e he => ?_⟩
  · simp [get_cached_verification, getBody, h]
  · rw [get_cached_verification]
    rcases hg : getBody s url now f with ⟨exv, st⟩
    rw [hg] at he
    cases exv with
    | error u => rfl
    | ok v => exact absurd he (by simp)
  · simp [store_verification, storeBody, h]
  · rw [store_verification]
    by_cases h : f.updateFail = true
    · simp [storeBody, h]
    · rw [storeBody, if_neg h] at he
      exact absurd he (by simp)

/-- Witness for C3: a lookup against a failing store is a plain miss. -/
theorem cache_failure_swallowed_witness :
    get_cached_verification [] "https://a.com/x" 0 ⟨true, false, false⟩ = (none, []) :=
  (cache_failure_swallowed [] "https://a.com/x" ⟨none, "", [], "", ""⟩ 0
    ⟨true, false, false⟩).1 rfl

set_option maxRecDepth 100000 in
/-- Counterexample to C9 as stated: storing the same key twice (at times
0 and 5) leaves `created_at = 5` — the `$set` of the full document
overwrites `created_at` on an update, it is not preserved. -/
theorem store_verification_c9_counterexample :
    (findOne
        (store_verification
          (store_verification [] "https://a.com/x" ⟨some true, "e", [], "", ""⟩ 0 noFaults)
          "https://a.com/x" ⟨some false, "f", [], "", ""⟩ 5 noFaults)
        (generate_cache_key "https://a.com/x")).map CacheEntry.created_at
      = some 5 ∧ ((5 : Int) ≠ 0) :=
  ⟨by decide, by decide⟩

/-- C9 amended: `put` is a full-document upsert — after a write the
entry under the key is exactly the fresh document (payload, normalized
URL, `created_at = now`, `expires_at = now + 30`), whether or not the
key existed, and entries under every other key are untouched. -/
theorem store_verification_upsert (s : Store) (url : String) (r : VResult) (now : Int) :
    findOne (store_verification s url r now noFaults) (generate_cache_key url)
      = some (mkDocument url r now) ∧
    (∀ k, k ≠ generate_cache_key url →
      findOne (store_verification s url r now noFaults) k = findOne s k) := by
  have hst : store_verification s url r now noFaults
      = upsertOne s (generate_cache_key url) (mkDocument url r now) := by
    simp [store_verification, storeBody, noFaults]
  refine ⟨?_, fun k hk => ?_⟩
  · rw [hst]
    exact findOne_upsertOne_self s (generate_cache_key url) (mkDocument url r now) rfl
  · rw [hst]
    exact findOne_upsertOne_ne s (generate_cache_key url) k (mkDocument url r now) rfl hk

set_option maxRecDepth 100000 in
/-- Witness for C9 amended: a write leaves an unrelated key unchanged. -/
theorem store_verification_upsert_witness :
    findOne (store_verification [] "https://a.com/x" ⟨some true, "e", [], "", ""⟩ 0 noFaults)
        "zzz"
      = findOne [] "zzz" :=
  (store_verification_upsert [] "https://a.com/x" ⟨some true, "e", [], "", ""⟩ 0).2
    "zzz" (by decide)

theorem reconcileLoop_domain_invariant (rd : String) (cands : List RSource) :
    ∀ (seen : List String) (acc : List RSource) out,
      reconcileLoop rd cands seen acc = Except.ok out →
      (∀ s ∈ acc, ∀ d, agentDomain s.source_url = Except.ok d → d ≠ rd) →
      (∀ s ∈ out.1, ∀ d, agentDomain s.source_url = Except.ok d → d ≠ rd) := by
  induction cands with
  | nil =>
    intro seen acc out h hacc
    rw [reconcileLoop] at h
    injection h with h
    rw [← h]
    exact hacc
  | cons s rest ih =>
    intro seen acc out h hacc
    simp only [reconcileLoop] at h
    by_cases h1 : pyStrip s.source_url = ""
    · rw [if_pos h1] at h
      exact ih _ _ _ h hacc
    · rw [if_neg h1] at h
      cases hd : agentDomain (pyStrip s.source_url) with
      | error e => rw [hd, exceptBind_error] at h; exact absurd h (by simp)
      | ok sd =>
        rw [hd, exceptBind_ok] at h
        by_cases h2 : sd = rd
        · rw [if_pos h2] at h
          exact ih _ _ _ h hacc
        · rw [if_neg h2] at h
          by_cases h3 : seen.contains (pyStrip s.source_url) = true
          · rw [if_pos h3] at h
            exact ih _ _ _ h hacc
          · rw [if_neg h3] at h
            refine ih _ _ _ h ?_
            intro x hx d hdx
            rcases List.mem_append.mp hx with hx | hx
            · exact hacc x hx d hdx
            · have hx2 : x = (⟨pyStrip s.source_url, pyStrip s.source_description⟩ : RSource) := by
                simpa using hx
              rw [hx2] at hdx
              have : d = sd := by
                rw [hd] at hdx
                injection hdx with h4
                exact h4.symm
              rw [this]
              exact h2

/-- C4 amended: every source accepted by the reconciler — candidate or
legacy fallback — has a code-normalized host (every `www.` occurrence
removed case-sensitively, then lowercased) different from the original
content URL's code-normalized host; in particular the claim's reddit
example (lowercase `www.`) is discarded.  (As stated the claim used
lowercase-then-strip-prefix normalization, which the code does not
implement; see the counterexample.) -/
theorem reconcile_no_self_source :
    (∀ url pr res, reconcile url pr = Except.ok res →
      ∀ s ∈ res.sources, ∀ ds dr, agentDomain s.source_url = Except.ok ds →
        redditDomain url = Except.ok dr → ds ≠ dr) ∧
    reconcile "https://reddit.com/r/news/abc"
        ⟨some true, "e", [⟨"https://www.reddit.com/other", "d"⟩], "", ""⟩ =
      Except.ok ⟨some true, "e", [], "", ""⟩ := by
  constructor
  · intro url pr res h s hs ds dr hds hdr
    rw [reconcile, hdr, exceptBind_ok] at h
    cases hloop : reconcileLoop dr pr.sources [] [] with
    | error e => rw [hloop, exceptBind_error] at h; exact absurd h (by simp)
    | ok p =>
      rw [hloop, exceptBind_ok] at h
      have hinv := reconcileLoop_domain_invariant dr pr.sources [] [] p
        hloop (by intro x hx; exact absurd hx (List.not_mem_nil x))
      by_cases hc : p.1 = [] ∧ pr.source_url ≠ "" ∧ ¬ (p.2.contains pr.source_url = true)
      · rw [if_pos hc] at h
        cases hfd : agentDomain pr.source_url with
        | error e => rw [hfd, exceptBind_error, exceptBind_error] at h; exact absurd h (by simp)
        | ok fd =>
          rw [hfd, exceptBind_ok] at h
          by_cases h4 : fd ≠ "" ∧ fd ≠ dr
          · rw [if_pos h4, exceptBind_ok] at h
            injection h with h
            rw [← h] at hs
            simp only at hs
            rw [hc.1] at hs
            have hs2 : s = (⟨pr.source_url, pyStrip pr.source_description⟩ : RSource) := by
              simpa [List.take] using hs
            rw [hs2] at hds
            simp only at hds
            rw [hfd] at hds
            injection hds with h5
            rw [← h5]
            exact h4.2
          · rw [if_neg h4, exceptBind_ok] at h
            injection h with h
            rw [← h] at hs
            simp only at hs
            rw [hc.1] at hs
            exact absurd hs (by simp [List.take])
      · rw [if_neg hc, exceptBind_ok] at h
        injection h with h
        rw [← h] at hs
        simp only at hs
        exact hinv s (List.take_subset 3 p.1 hs) ds hds
  · decide

/-- Witness for C4 amended: a concrete cross-host candidate gives
distinct normalized domains. -/
theorem reconcile_no_self_source_witness : ("apnews.com" : String) ≠ "reddit.com" :=
  reconcile_no_self_source.1 "https://reddit.com/x"
    ⟨some true, "e", [⟨"https://apnews.com/a", "d"⟩], "", ""⟩
    ⟨some true, "e", [⟨"https://apnews.com/a", "d"⟩], "", ""⟩
    (by decide) ⟨"https://apnews.com/a", "d"⟩ (by decide)
    "apnews.com" "reddit.com" (by decide) (by decide)

theorem replaceWwwList_eq_goWww (l : List Char) : replaceWwwList l = goWww l := by
  induction l using replaceWwwList.induct with
  | case1 rest ih =>
    rw [goWww]
    simp only [List.take_succ_cons, List.take_zero, List.drop_succ_cons, List.drop_zero,
      if_true]
    exact ih
  | case2 c rest hx ih =>
    rw [replaceWwwList.eq_2 c rest hx, goWww]
    have hcond : ¬ (List.take 4 (c :: rest) = ['w', 'w', 'w', '.']) := by
      intro hh
      rw [List.take_succ_cons] at hh
      injection hh with h1 h2
      have h3 : rest = 'w' :: 'w' :: '.' :: rest.drop 3 := by
        conv_lhs => rw [← List.take_append_drop 3 rest]
        rw [h2]
        rfl
      exact hx (rest.drop 3) h1 h3
    rw [if_neg hcond, ih]
  | case3 => rw [goWww]; rfl

theorem rstripSlashList_eq_dropSlashTail (l : List Char) :
    rstripSlashList l = dropSlashTail l := by
  induction l with
  | nil => rfl
  | cons c rest ih =>
    rw [dropSlashTail]
    by_cases h : c = '/' ∧ rest.all (fun x => x = '/') = true
    · rw [if_pos h]
      have hnil : (c :: rest).reverse.dropWhile (fun x => x = '/') = [] := by
        rw [List.dropWhile_eq_nil_iff]
        intro x hx
        rw [List.mem_reverse] at hx
        rcases List.mem_cons.mp hx with h1 | h1
        · simp [h1, h.1]
        · simpa using List.all_eq_true.mp h.2 x h1
      rw [rstripSlashList, hnil]
      rfl
    · rw [if_neg h, ← ih, rstripSlashList, rstripSlashList, List.reverse_cons]
      by_cases hall : rest.all (fun x => x = '/') = true
      · have hc : ¬ (c = '/') := fun hc => h ⟨hc, hall⟩
        have h1 : rest.reverse.dropWhile (fun x => x = '/') = [] := by
          rw [List.dropWhile_eq_nil_iff]
          intro x hx
          rw [List.mem_reverse] at hx
          simpa using List.all_eq_true.mp hall x hx
        rw [List.dropWhile_append, h1]
        simp [hc]
      · have h2 : ¬ (rest.reverse.dropWhile (fun x => x = '/') = []) := by
          rw [List.dropWhile_eq_nil_iff]
          intro hA
          refine hall (List.all_eq_true.mpr fun x hx => ?_)
          simpa using hA x (List.mem_reverse.mpr hx)
        rw [List.dropWhile_append]
        rw [if_neg (by simpa [List.isEmpty_iff] using h2)]
        rw [List.reverse_append]
        rfl

/-- C2 amended: `normalize_url` implements the claimed algorithm with
two corrections — it removes *every* occurrence of `www.` from the host
(not only a leading one) and strips *all* trailing slashes from the path
(not only a single one); the empty-input and fallback behavior are as
the claim states. -/
theorem normalize_url_eq_amended (url : String) :
    normalize_url url = normalizeAmendedC2 url := by
  simp only [normalize_url, normalizeAmendedC2]
  by_cases h : url = ""
  · rw [if_pos h, if_pos h]
  · rw [if_neg h, if_neg h]
    cases hp : urlparse (pyStrip (pyLower url)) with
    | error e => rfl
    | ok p =>
      show urlunparse3 p.scheme (pyReplaceWww p.netloc) (pyRstripSlash p.path)
        = urlunparse3 p.scheme ⟨goWww p.netloc.data⟩ ⟨dropSlashTail p.path.data⟩
      rw [pyReplaceWww, replaceWwwList_eq_goWww, pyRstripSlash,
        rstripSlashList_eq_dropSlashTail]

theorem reconcileLoop_eq_specFilter (rd : String) (cands : List RSource) :
    ∀ (seen : List String) (acc : List RSource),
      (reconcileLoop rd cands seen acc).map Prod.fst
        = (specFilterC6 rd cands).map (fun l => acc ++ dedupKeepFirst l seen) := by
  induction cands with
  | nil =>
    intro seen acc
    simp [reconcileLoop, specFilterC6, dedupKeepFirst, exceptMap_ok]
  | cons s rest ih =>
    intro seen acc
    simp only [reconcileLoop, specFilterC6]
    by_cases h1 : pyStrip s.source_url = ""
    · rw [if_pos h1, if_pos h1]
      exact ih seen acc
    · rw [if_neg h1, if_neg h1]
      cases hd : agentDomain (pyStrip s.source_url) with
      | error e => rfl
      | ok sd =>
        rw [exceptBind_ok, exceptBind_ok]
        by_cases h2 : sd = rd
        · rw [if_pos h2, if_pos h2]
          exact ih seen acc
        · rw [if_neg h2, if_neg h2]
          by_cases h3 : seen.contains (pyStrip s.source_url) = true
          · rw [if_pos h3, ih seen acc]
            have h3m : pyStrip s.source_url ∈ seen := by simpa using h3
            cases hf : specFilterC6 rd rest with
            | error e => rfl
            | ok l =>
              rw [exceptMap_ok, exceptMap_ok, exceptMap_ok]
              simp [dedupKeepFirst, h3m]
          · rw [if_neg h3,
              ih (pyStrip s.source_url :: seen)
                (acc ++ [(⟨pyStrip s.source_url, pyStrip s.source_description⟩ : RSource)])]
            have h3m : ¬ (pyStrip s.source_url ∈ seen) := by simpa using h3
            cases hf : specFilterC6 rd rest with
            | error e => rfl
            | ok l =>
              rw [exceptMap_ok, exceptMap_ok, exceptMap_ok]
              simp [dedupKeepFirst, h3m]

/-- C6 amended: with no legacy fallback fields, the reconciled list is
exactly the claim's pipeline *plus* the same-host discard: trim both
fields, discard empty URLs, discard candidates whose code-normalized
host equals the original's, keep the first occurrence of each URL,
truncate to 3 — in particular five distinct cross-host candidates yield
exactly the first three in original order. -/
theorem reconcile_eq_spec_pipeline :
    (∀ url (pr : VResult), pr.source_url = "" →
      reconcile url pr
        = (specReconcileC6Amended url pr.sources).map
            (fun l => { pr with sources := l })) ∧
    reconcile "https://reddit.com/x"
        ⟨some true, "e",
          [⟨"https://a.com/1", "d1"⟩, ⟨"https://b.com/2", "d2"⟩, ⟨"https://c.com/3", "d3"⟩,
           ⟨"https://d.com/4", "d4"⟩, ⟨"https://e.com/5", "d5"⟩], "", ""⟩ =
      Except.ok ⟨some true, "e",
        [⟨"https://a.com/1", "d1"⟩, ⟨"https://b.com/2", "d2"⟩, ⟨"https://c.com/3", "d3"⟩],
        "", ""⟩ := by
  constructor
  · intro url pr hleg
    rw [reconcile, specReconcileC6Amended]
    cases hrd : redditDomain url with
    | error e => rfl
    | ok rd =>
      rw [exceptBind_ok, exceptBind_ok]
      have hL := reconcileLoop_eq_specFilter rd pr.sources [] []
      cases hloop : reconcileLoop rd pr.sources [] [] with
      | error e =>
        cases hf : specFilterC6 rd pr.sources with
        | error e2 => rfl
        | ok l =>
          rw [hloop, hf, exceptMap_error, exceptMap_ok] at hL
          exact absurd hL (by simp)
      | ok p =>
        cases hf : specFilterC6 rd pr.sources with
        | error e =>
          rw [hloop, hf, exceptMap_ok, exceptMap_error] at hL
          exact absurd hL (by simp)
        | ok l =>
          rw [hloop, hf, exceptMap_ok, exceptMap_ok] at hL
          injection hL with hL
          rw [exceptBind_ok, exceptMap_ok, exceptMap_ok]
          have hc : ¬ (p.1 = [] ∧ pr.source_url ≠ "" ∧
              ¬ (p.2.contains pr.source_url = true)) := by simp [hleg]
          rw [if_neg hc, exceptBind_ok]
          rw [List.nil_append] at hL
          rw [hL]
  · decide

/-- Witness for C6 amended: the equality instantiated at a concrete
legacy-free raw result. -/
theorem reconcile_eq_spec_pipeline_witness :
    reconcile "https://reddit.com/x"
        ⟨some true, "e", [⟨"https://a.com/1", "d1"⟩], "", ""⟩
      = (specReconcileC6Amended "https://reddit.com/x" [⟨"https://a.com/1", "d1"⟩]).map
          (fun l =>
            { (⟨some true, "e", [⟨"https://a.com/1", "d1"⟩], "", ""⟩ : VResult) with
                sources := l }) :=
  reconcile_eq_spec_pipeline.1 "https://reddit.com/x"
    ⟨some true, "e", [⟨"https://a.com/1", "d1"⟩], "", ""⟩ rfl

/-- Counterexample to C8 as stated: two pairs of raw URLs that differ
only by a trailing slash yet normalize differently — one through the
interaction of `strip()` with a trailing space, one through `urlparse`'s
params split on the last path segment. -/
theorem normalize_url_c8_counterexample :
    ("https://a.com/x " ++ "/" = "https://a.com/x /") ∧
    normalize_url "https://a.com/x " ≠ normalize_url "https://a.com/x /" ∧
    ("https://h/a;x" ++ "/" = "https://h/a;x/") ∧
    normalize_url "https://h/a;x" ≠ normalize_url "https://h/a;x/" := by
  refine ⟨by decide, by decide, by decide, by decide⟩

/-- C8 amended: when the lowercased, trimmed forms of two raw URLs parse
successfully into components equal up to an extra leading `www.` on the
host and an extra trailing slash on the (post-params) path — query,
fragment and params free — `normalize_url` returns identical strings and
`generate_cache_key` identical keys.  (Raw-string trailing slashes are
not always covered: see the counterexample.) -/
theorem normalize_url_key_invariance (u v : String) (pu pv : UrlParts)
    (hu : urlparse (pyStrip (pyLower u)) = Except.ok pu)
    (hv : urlparse (pyStrip (pyLower v)) = Except.ok pv)
    (hs : pu.scheme = pv.scheme)
    (hn : relWww pu.netloc pv.netloc)
    (hp : relSlash pu.path pv.path) :
    normalize_url u = normalize_url v ∧ generate_cache_key u = generate_cache_key v := by
  have eval : ∀ (w : String) (pw : UrlParts), urlparse (pyStrip (pyLower w)) = Except.ok pw →
      normalize_url w = urlunparse3 pw.scheme (pyReplaceWww pw.netloc) (pyRstripSlash pw.path) := by
    intro w pw hw
    by_cases hw0 : w = ""
    · subst hw0
      have he : urlparse (pyStrip (pyLower "")) =
          Except.ok (⟨"", "", "", "", "", ""⟩ : UrlParts) := by decide
      rw [he] at hw
      injection hw with hw
      rw [← hw]
      decide
    · simp only [normalize_url]
      rw [if_neg hw0, hw]
  have hnet : pyReplaceWww pu.netloc = pyReplaceWww pv.netloc := by
    rcases hn with h | h | h
    · rw [h]
    · rw [h, pyReplaceWww_www_append]
    · rw [h, pyReplaceWww_www_append]
  have hpath : pyRstripSlash pu.path = pyRstripSlash pv.path := by
    rcases hp with h | h | h
    · rw [h]
    · rw [h, pyRstripSlash_append_slash]
    · rw [h, pyRstripSlash_append_slash]
  have h1 : normalize_url u = normalize_url v := by
    rw [eval u pu hu, eval v pv hv, hs, hnet, hpath]
  exact ⟨h1, by rw [generate_cache_key, generate_cache_key, h1]⟩

/-- Witness for C8 amended: a concrete pair differing by case, `www.`,
trailing slash, query and fragment normalizes and hashes identically. -/
theorem normalize_url_key_invariance_witness :
    normalize_url "https://WWW.Example.com/Article/?ref=reddit#top"
      = normalize_url "https://example.com/article" ∧
    generate_cache_key "https://WWW.Example.com/Article/?ref=reddit#top"
      = generate_cache_key "https://example.com/article" :=
  normalize_url_key_invariance
    "https://WWW.Example.com/Article/?ref=reddit#top" "https://example.com/article"
    ⟨"https", "www.example.com", "/article/", "", "ref=reddit", "top"⟩
    ⟨"https", "example.com", "/article", "", "", ""⟩
    (by decide) (by decide) (by decide)
    (Or.inr (Or.inl (by decide))) (Or.inr (Or.inl (by decide)))

end MongoHack
